import Mathlib

/-!
Shallow embedding of the WLD_Final real-time market-data and decision
pipeline (src_cpp): the order-book view (`OrderBookL3.hpp`), the signal
engine (`SignalEngine.hpp`), the quoting strategy
(`MarketMakerStrategy.hpp`), the SPSC ring buffer (`RingBuffer.hpp`),
the execution simulator (`LiveEngine.hpp`) and the recorder producer
(`recorder.cpp`).  64-bit signed machine integers are modelled as `Int`
(the C++ executions of interest are overflow-free; signed overflow is
undefined behaviour), C++ `/` on integers is `Int.tdiv` (truncation
toward zero), and `double` quantities that only feed comparisons and
exact-decimal arithmetic are modelled as `ℚ`.
-/

/-- `PRICE_SCALE` from `OrderBookL3.hpp` (1e8 fixed point). -/
def PRICE_SCALE : Int := 100000000

/-- The hot-path event record `MarketUpdate` from `OrderBookL3.hpp`
(the 22 bytes of explicit padding carry no data and are omitted). -/
structure MarketUpdate where
  timestamp_exchange : Int
  timestamp_local : Int
  order_id : Int
  price : Int
  size : Int
  side : Char
  type : Char
deriving DecidableEq, Repr

/-- The order-book view `OrderBookL3`: two append-ordered vectors of
events (`std::vector<MarketUpdate> bids, asks`). -/
structure OrderBookL3 where
  bids : List MarketUpdate
  asks : List MarketUpdate
deriving DecidableEq, Repr

/-- `OrderBookL3::clear`. -/
def clearBook (_b : OrderBookL3) : OrderBookL3 := ⟨[], []⟩

/-- `OrderBookL3::addOrder`: push to `bids` when `side == 'B'`, else
to `asks`; no sorting, no crossed-book check. -/
def addOrder (b : OrderBookL3) (u : MarketUpdate) : OrderBookL3 :=
  if u.side = 'B' then { b with bids := b.bids ++ [u] }
  else { b with asks := b.asks ++ [u] }

/-- `OrderBookL3::getMicroPrice`.  The C++ computes the weighted sum in
`unsigned __int128` and divides by the `int64_t` total; `Int.tdiv`
agrees with it on the overflow-free, non-negative inputs the pipeline
produces. -/
def getMicroPrice (b : OrderBookL3) : Int :=
  match b.bids, b.asks with
  | [], _ => 0
  | _, [] => 0
  | bb :: _, ba :: _ =>
    let bidVol := bb.size
    let askVol := ba.size
    if bidVol + askVol = 0 then (bb.price + ba.price).tdiv 2
    else (bb.price * askVol + ba.price * bidVol).tdiv (bidVol + askVol)

/-- Sum of the sizes of the first `min 5 (length)` levels, as computed
by the top-5 loops in `getImbalance` / `checkIntegrity`. -/
def sumTop5Sizes (l : List MarketUpdate) : Int :=
  ((l.take 5).map (fun u => u.size)).sum

/-- `OrderBookL3::getImbalance`: top-5 volume imbalance scaled to E8,
sign applied after an absolute-value division. -/
def getImbalance (b : OrderBookL3) : Int :=
  if b.bids = [] ∨ b.asks = [] then 0
  else
    let bidVol := sumTop5Sizes b.bids
    let askVol := sumTop5Sizes b.asks
    if bidVol + askVol = 0 then 0
    else
      let diff := bidVol - askVol
      let total := bidVol + askVol
      let result := (|diff| * PRICE_SCALE).tdiv total
      if diff < 0 then -result else result

/-- `SignalEngine::WINDOW_SIZE` (1000-slot circular trade history). -/
def WINDOW_SIZE : Nat := 1000

/-- `SignalEngine::MAX_LATENCY_NS` (500 ms). -/
def MAX_LATENCY_NS : Int := 500000000

/-- `SignalEngine::VACUUM_THRESHOLD` (0.5 units E8). -/
def VACUUM_THRESHOLD : Int := 50000000

/-- `SignalEngine::WALL_THRESHOLD` (5.0 units E8). -/
def WALL_THRESHOLD : Int := 500000000

/-- `SignalEngine::TradeRecord`. -/
structure TradeRecord where
  price : Int
  size : Int
  side : Char
  timestamp : Int
deriving DecidableEq, Repr

/-- The `SignalEngine` state.  The circular `std::array` is modelled as
a function from slot index to record (slots outside the populated
window are never read by the code). -/
structure SignalEngine where
  history : Nat → TradeRecord
  head : Nat
  count : Nat
  runningBuyVol : Int
  runningSellVol : Int
  currentLatency : Int
  isStale : Bool

/-- Initial `SignalEngine` (the uninitialised C++ array is modelled as
all-zero records; `count = 0` keeps them unread). -/
def initSignalEngine : SignalEngine :=
  ⟨fun _ => ⟨0, 0, Char.ofNat 0, 0⟩, 0, 0, 0, 0, 0, false⟩

/-- `SignalEngine::addEvent`: latency guard first, then (for trades
only) circular-window insertion with eviction of the overwritten slot
from the running totals. -/
def addEvent (s : SignalEngine) (mu : MarketUpdate) : SignalEngine :=
  let lat := mu.timestamp_local - mu.timestamp_exchange
  let stale := decide (lat > MAX_LATENCY_NS)
  if mu.type ≠ 'T' then
    { s with currentLatency := lat, isStale := stale }
  else
    let r : TradeRecord := ⟨mu.price, mu.size, mu.side, mu.timestamp_exchange⟩
    let evicted :=
      if s.count = WINDOW_SIZE then
        let tail := s.history s.head
        if tail.side = 'B' then
          (s.runningBuyVol - tail.size, s.runningSellVol, s.count)
        else
          (s.runningBuyVol, s.runningSellVol - tail.size, s.count)
      else (s.runningBuyVol, s.runningSellVol, s.count + 1)
    let buy := if r.side = 'B' then evicted.1 + r.size else evicted.1
    let sell := if r.side = 'B' then evicted.2.1 else evicted.2.1 + r.size
    { history := Function.update s.history s.head r
      head := (s.head + 1) % WINDOW_SIZE
      count := evicted.2.2
      runningBuyVol := buy
      runningSellVol := sell
      currentLatency := lat
      isStale := stale }

/-- `SignalEngine::isSignalStale`. -/
def isSignalStale (s : SignalEngine) : Bool := s.isStale

/-- `SignalEngine::getVPIN`. -/
def getVPIN (s : SignalEngine) : Int :=
  let total := s.runningBuyVol + s.runningSellVol
  if total = 0 then 0
  else
    let diff := s.runningBuyVol - s.runningSellVol
    (|diff| * PRICE_SCALE).tdiv total * (if diff < 0 then -1 else 1)

/-- `SignalEngine::getTradeVelocity` (trades per second).  The C++
value is a `double`; it is modelled as the exact rational. -/
def getTradeVelocity (s : SignalEngine) : ℚ :=
  if s.count < 2 then 0
  else
    let tailIdx := (s.head + WINDOW_SIZE - s.count) % WINDOW_SIZE
    let recentIdx := (s.head + WINDOW_SIZE - 1) % WINDOW_SIZE
    let durationNs := (s.history recentIdx).timestamp - (s.history tailIdx).timestamp
    if durationNs ≤ 0 then 0
    else (s.count : ℚ) / ((durationNs : ℚ) / 1000000000)

/-- `SignalEngine::State`. -/
inductive SEState where
  | NORMAL
  | VACUUM_DETECTED
  | ABSORPTION_DETECTED
deriving DecidableEq, Repr

/-- L1 wall test used by `checkIntegrity`:
`!side.empty() && side[0].size > WALL_THRESHOLD`. -/
def l1Wall (l : List MarketUpdate) : Bool :=
  match l with
  | [] => false
  | x :: _ => decide (x.size > WALL_THRESHOLD)

/-- `SignalEngine::checkIntegrity`. -/
def checkIntegrity (s : SignalEngine) (book : OrderBookL3) : SEState :=
  if s.isStale then SEState.NORMAL
  else
    let bidLiq5 := sumTop5Sizes book.bids
    let askLiq5 := sumTop5Sizes book.asks
    if bidLiq5 < VACUUM_THRESHOLD ∨ askLiq5 < VACUUM_THRESHOLD then
      SEState.VACUUM_DETECTED
    else if l1Wall book.bids ∨ l1Wall book.asks then
      SEState.ABSORPTION_DETECTED
    else SEState.NORMAL

/-- The max/min scan of `SignalEngine::getTrapSignal`, starting from
`maxPx = 0` and `minPx = INT64_MAX` exactly as the C++ does. -/
def trapScan (s : SignalEngine) : Int × Int :=
  (List.range s.count).foldl
    (fun mm i =>
      let px := (s.history ((s.head + WINDOW_SIZE - 1 - i) % WINDOW_SIZE)).price
      (if px > mm.1 then px else mm.1, if px < mm.2 then px else mm.2))
    (0, 9223372036854775807)

/-- `SignalEngine::getTrapSignal`. -/
def getTrapSignal (s : SignalEngine) : Int :=
  if s.count < 50 then 0
  else
    let lastPx := (s.history ((s.head + WINDOW_SIZE - 1) % WINDOW_SIZE)).price
    let mm := trapScan s
    let vpin := getVPIN s
    if vpin > 30000000 ∧ lastPx < mm.1 - 50000 then 1
    else if vpin < -30000000 ∧ lastPx > mm.2 + 50000 then -1
    else 0

/-- The `Quotes` record from `MarketMakerStrategy.hpp`. -/
structure Quotes where
  bidPx : Int
  askPx : Int
  bidActive : Bool
  askActive : Bool
  reason : String
  isTaker : Bool
  takerSide : Char
  takerQty : Int
deriving DecidableEq, Repr

/-- `MarketMakerStrategy::TICK_SIZE` sibling constants. -/
def HALF_SPREAD : Int := 20000

/-- `MarketMakerStrategy::RISK_AVERSION`. -/
def RISK_AVERSION : Int := 100

/-- `MarketMakerStrategy::TAKER_FEE`. -/
def TAKER_FEE : Int := 55000

/-- `MarketMakerStrategy::VELOCITY_THRESHOLD` (5.0 trades/sec). -/
def VELOCITY_THRESHOLD : ℚ := 5

/-- `MarketMakerStrategy::Regime`. -/
inductive Regime where
  | RANGE
  | WICK_CATCHER
  | ROCKET_SURFER
deriving DecidableEq, Repr

/-- `MarketMakerStrategy` state (book, signal engine, position). -/
structure MarketMakerStrategy where
  book : OrderBookL3
  signals : SignalEngine
  currentPosition : Int

/-- `MarketMakerStrategy::update`. -/
def stratUpdate (m : MarketMakerStrategy) (mu : MarketUpdate) : MarketMakerStrategy :=
  { m with book := addOrder m.book mu, signals := addEvent m.signals mu }

/-- The default-initialised quote `Quotes q{0,0,false,false,"WAIT",false,0,0}`. -/
def waitQuote : Quotes :=
  ⟨0, 0, false, false, "WAIT", false, Char.ofNat 0, 0⟩

/-- `MarketMakerStrategy::getQuotes`: safety gate, micro-price gate,
regime selection and the regime-keyed emission, with the early returns
of the C++ rendered as a nested conditional. -/
def getQuotes (m : MarketMakerStrategy) : Quotes :=
  if isSignalStale m.signals then
    { waitQuote with reason := "SAFETY_LATENCY_GUARD" }
  else
    let micro := getMicroPrice m.book
    if micro = 0 then waitQuote
    else
      let velocity := getTradeVelocity m.signals
      let integrity := checkIntegrity m.signals m.book
      let trap := getTrapSignal m.signals
      let imbalance := getImbalance m.book
      let regime :=
        if velocity > VELOCITY_THRESHOLD then
          if integrity = SEState.VACUUM_DETECTED then Regime.ROCKET_SURFER
          else if integrity = SEState.ABSORPTION_DETECTED ∨ trap ≠ 0 then
            Regime.WICK_CATCHER
          else Regime.RANGE
        else Regime.RANGE
      let feeThreshold := TAKER_FEE * 3
      if regime = Regime.ROCKET_SURFER ∧ imbalance > 30000000 ∧
          (200000 : Int) > feeThreshold then
        { waitQuote with isTaker := true, takerSide := 'B',
                         takerQty := 100000000, reason := "ROCKET_SURFER_BUY" }
      else if regime = Regime.ROCKET_SURFER ∧ imbalance < -30000000 ∧
          (200000 : Int) > feeThreshold then
        { waitQuote with isTaker := true, takerSide := 'S',
                         takerQty := 100000000, reason := "ROCKET_SURFER_SELL" }
      else if regime = Regime.WICK_CATCHER ∧ trap = 1 then
        { waitQuote with askPx := micro + HALF_SPREAD, askActive := true,
                         bidActive := false, reason := "WICK_CATCHER_SHORT" }
      else if regime = Regime.WICK_CATCHER ∧ trap = -1 then
        { waitQuote with bidPx := micro - HALF_SPREAD, bidActive := true,
                         askActive := false, reason := "WICK_CATCHER_LONG" }
      else
        let bidPx := micro - HALF_SPREAD - m.currentPosition * RISK_AVERSION
        let askPx := micro + HALF_SPREAD - m.currentPosition * RISK_AVERSION
        if bidPx ≥ askPx then
          let mid := (bidPx + askPx).tdiv 2
          { waitQuote with bidPx := mid - HALF_SPREAD, askPx := mid + HALF_SPREAD,
                           bidActive := true, askActive := true, reason := "RANGE_MM" }
        else
          { waitQuote with bidPx := bidPx, askPx := askPx,
                           bidActive := true, askActive := true, reason := "RANGE_MM" }

/-- The SPSC ring of `RingBuffer.hpp`: `buffer` models the
`std::vector<T>` of size `Capacity + 1`; `head` is the write index,
`tail` the read index. -/
structure RingBuffer (α : Type) (Capacity : Nat) where
  buffer : Nat → α
  head : Nat
  tail : Nat

/-- A freshly constructed ring: indices zero, `d` standing for the
value-initialised vector contents. -/
def emptyRB (α : Type) (Capacity : Nat) (d : α) : RingBuffer α Capacity :=
  ⟨fun _ => d, 0, 0⟩

/-- `RingBuffer::push`: full when advancing `head` would meet `tail`. -/
def rbPush {α : Type} {C : Nat} (rb : RingBuffer α C) (item : α) :
    RingBuffer α C × Bool :=
  let next_head := (rb.head + 1) % (C + 1)
  if next_head = rb.tail then (rb, false)
  else ({ rb with buffer := Function.update rb.buffer rb.head item,
                  head := next_head }, true)

/-- `RingBuffer::pop`: the boolean-and-out-parameter protocol is
rendered as an `Option`. -/
def rbPop {α : Type} {C : Nat} (rb : RingBuffer α C) :
    RingBuffer α C × Option α :=
  if rb.tail = rb.head then (rb, none)
  else ({ rb with tail := (rb.tail + 1) % (C + 1) }, some (rb.buffer rb.tail))

/-- Iterated pushes, collecting each push's return value. -/
def pushList {α : Type} {C : Nat} (rb : RingBuffer α C) :
    List α → RingBuffer α C × List Bool
  | [] => (rb, [])
  | x :: rest =>
    let p := rbPush rb x
    let q := pushList p.1 rest
    (q.1, p.2 :: q.2)

/-- `n` iterated pops, collecting the popped values. -/
def popN {α : Type} {C : Nat} (rb : RingBuffer α C) :
    Nat → RingBuffer α C × List (Option α)
  | 0 => (rb, [])
  | n + 1 =>
    let p := rbPop rb
    let q := popN p.1 n
    (q.1, p.2 :: q.2)

/-- `LiveOrder` from `LiveEngine.hpp` (doubles modelled as exact
rationals). -/
structure LiveOrder where
  id : Int
  side : Char
  price : ℚ
  quantity : ℚ
  active : Bool
  isExit : Bool
  timestamp : Int
  reason : String
deriving DecidableEq, Repr

/-- The account fields of `LiveEngine` touched by `checkFills`. -/
structure AccountState where
  balance : ℚ
  position : ℚ
  entryPrice : ℚ
deriving DecidableEq, Repr

/-- The fill predicate of `LiveEngine::checkFills`:
`(o.side=='B' && P <= o.price) || (o.side=='A' && P >= o.price)`. -/
def fillCond (tradePrice : ℚ) (o : LiveOrder) : Bool :=
  (o.side = 'B' ∧ tradePrice ≤ o.price) ∨ (o.side = 'A' ∧ tradePrice ≥ o.price)

/-- The per-fill PnL/position/entry update of `LiveEngine::checkFills`
(the `1e-9` flatness tolerance is the exact rational `1/10^9`). -/
def applyFill (st : AccountState) (o : LiveOrder) : AccountState :=
  if o.side = 'B' then
    if st.position ≥ 0 then
      let cost := st.position * st.entryPrice + o.quantity * o.price
      let pos := st.position + o.quantity
      { st with position := pos, entryPrice := cost / pos }
    else
      let pnl := (st.entryPrice - o.price) * o.quantity
      let pos := st.position + o.quantity
      if |pos| < 1 / 1000000000 then
        { balance := st.balance + pnl, position := 0, entryPrice := 0 }
      else
        { st with balance := st.balance + pnl, position := pos }
  else
    if st.position ≤ 0 then
      let cost := |st.position| * st.entryPrice + o.quantity * o.price
      let pos := st.position - o.quantity
      { st with position := pos, entryPrice := cost / |pos| }
    else
      let pnl := (o.price - st.entryPrice) * o.quantity
      let pos := st.position - o.quantity
      if |pos| < 1 / 1000000000 then
        { balance := st.balance + pnl, position := 0, entryPrice := 0 }
      else
        { st with balance := st.balance + pnl, position := pos }

/-- `LiveEngine::checkFills`: walk the order list in place, deactivate
and apply every active order crossed by the print at `tradePrice`. -/
def checkFills (tradePrice : ℚ) (st : AccountState) :
    List LiveOrder → AccountState × List LiveOrder
  | [] => (st, [])
  | o :: rest =>
    if o.active ∧ fillCond tradePrice o then
      let res := checkFills tradePrice (applyFill st o) rest
      (res.1, { o with active := false } :: res.2)
    else
      let res := checkFills tradePrice st rest
      (res.1, o :: res.2)

/-- A bid-side `MarketUpdate` as built in `LiveEngine::updateStrategy`
(only `side`, `price`, `size` are assigned; the rest is modelled 0). -/
def mkBidUpdate (l : Int × Int) : MarketUpdate :=
  ⟨0, 0, 0, l.1, l.2, 'B', Char.ofNat 0⟩

/-- An ask-side `MarketUpdate` as built in `LiveEngine::updateStrategy`. -/
def mkAskUpdate (l : Int × Int) : MarketUpdate :=
  ⟨0, 0, 0, l.1, l.2, 'A', Char.ofNat 0⟩

/-- The book-rebuild of `LiveEngine::updateStrategy`: clear, then
`addOrder` every display level (levels already converted to E8 by
`toFixed`), bids first, then asks. -/
def applySnapshot (book : OrderBookL3) (bids asks : List (Int × Int)) :
    OrderBookL3 :=
  let b1 := bids.foldl (fun b l => addOrder b (mkBidUpdate l)) (clearBook book)
  asks.foldl (fun b l => addOrder b (mkAskUpdate l)) b1

/-- `protocol.h` symbol id `ID_WLDUSDT`. -/
def ID_WLDUSDT : Nat := 0

/-- Split a character list at every occurrence of `c`, keeping empty
segments (the token stream of repeated `std::getline(ss, seg, c)` on a
non-empty stream, before the end-of-stream adjustment). -/
def splitOnChar (c : Char) : List Char → List (List Char)
  | [] => [[]]
  | a :: rest =>
    match splitOnChar c rest with
    | [] => []
    | g :: gs => if a = c then [] :: g :: gs else (a :: g) :: gs

/-- The field list produced by the recorder's
`while (std::getline(ss, segment, c)) parts.push_back(segment)` loop:
an empty input yields no fields, and a trailing delimiter does not
yield a trailing empty field (the final `getline` fails at EOF). -/
def cppSplit (c : Char) (cs : List Char) : List String :=
  if cs = [] then []
  else if cs.getLast? = some c then
    ((splitOnChar c cs).dropLast).map (fun l => String.mk l)
  else (splitOnChar c cs).map (fun l => String.mk l)

/-- Decimal digits prefix value; `none` when the first character is not
a digit. -/
def parseDigits (cs : List Char) : Option (Nat × List Char) :=
  let ds := cs.takeWhile (fun ch => ch.isDigit)
  if ds = [] then none
  else some (ds.foldl (fun n ch => 10 * n + (ch.toNat - 48)) 0, cs.drop ds.length)

/-- The six whitespace characters of `std::isspace` in the default C
locale, skipped by `std::stoll` and `std::stod` ahead of the number. -/
def isCppSpace (c : Char) : Bool :=
  c == ' ' || c == '\t' || c == '\n' || c == '\x0b' || c == '\x0c' || c == '\r'

/-- Model of `std::stoll` (base 10) on the recorder's timestamp
fields: skip leading whitespace, optional sign, then a digit prefix.
`none` models both throws that the surrounding `catch (...)` turns
into a dropped line: `std::invalid_argument` when no digit follows,
and `std::out_of_range` when the value does not fit in a signed
64-bit `long long`. -/
def stollOpt (s : String) : Option Int :=
  match s.data.dropWhile isCppSpace with
  | '-' :: rest =>
    (parseDigits rest).bind (fun p =>
      if 9223372036854775808 < p.1 then none else some (-(p.1 : Int)))
  | '+' :: rest =>
    (parseDigits rest).bind (fun p =>
      if 9223372036854775807 < p.1 then none else some (p.1 : Int))
  | cs =>
    (parseDigits cs).bind (fun p =>
      if 9223372036854775807 < p.1 then none else some (p.1 : Int))

/-- Optional sign followed by a digit prefix, as in the exponent part
of a `strtod` decimal; `0` when no digit follows (the exponent marker
is then not part of the longest valid prefix and the significand
stands alone). -/
def parseSignedDigits (cs : List Char) : Int :=
  match cs with
  | '-' :: r =>
    match parseDigits r with
    | none => 0
    | some p => -(p.1 : Int)
  | '+' :: r =>
    match parseDigits r with
    | none => 0
    | some p => (p.1 : Int)
  | r =>
    match parseDigits r with
    | none => 0
    | some p => (p.1 : Int)

/-- The optional exponent of a `strtod` decimal: `e`/`E`, optional
sign, at least one digit; `0` when absent or incomplete. -/
def parseExponent (cs : List Char) : Int :=
  match cs with
  | 'e' :: rest => parseSignedDigits rest
  | 'E' :: rest => parseSignedDigits rest
  | _ => 0

/-- The largest finite `double`, `(2^53 - 1) * 2^971`, as an integer
literal (see `DBL_MAX_NUM_eq`): `std::stod` throws `std::out_of_range`
beyond it. -/
def DBL_MAX_NUM : Nat := 179769313486231570814527423731704356798070567525844996598917476803157260780028538760589558632766878171540458953514382464234321326889464182768467546703537516986049910576551282076245490090389328944075868508455133942304583236903222948165808559332123348274797826204144723168738177180919299881250404026184124858368

/-- The literal above is `(2^53 - 1) * 2^971` (`DBL_MAX` exactly). -/
theorem DBL_MAX_NUM_eq : DBL_MAX_NUM = (2 ^ 53 - 1) * 2 ^ 971 := by
  norm_num [DBL_MAX_NUM]

/-- The value of a decimal string as an E8 integer,
`trunc(stod(s) * 1e8)`: leading whitespace, optional sign, digits
with optional fraction, optional `e`/`E` exponent (consumed only when
digits follow, per `strtod`'s longest-valid-prefix rule).  `none`
models the throws the recorder catches: `std::invalid_argument` when
no significand digit is found, `std::out_of_range` when the magnitude
exceeds `DBL_MAX`.  The significand `m`, fraction length `fl` and
exponent `e` give the exact value `m * 10^(e - fl)`, scaled by `10^8`
and truncated toward zero.  Idealisations (all value-level, none
affecting the push/drop behaviour, which only `stollOpt` decides):
the arithmetic is exact where `stod` rounds to the nearest `double`;
underflow (`strtod` ERANGE on tiny values, a throw and catch-all 0 in
the recorder) truncates to 0 here as well; the hexadecimal, infinity
and NaN forms of `strtod` are outside the feed's alphabet and not
modelled. -/
def parseDecimalE8 (s : String) : Option Int :=
  let core : List Char → Option Int := fun cs =>
    let intDs := cs.takeWhile (fun ch => ch.isDigit)
    let rest1 := cs.drop intDs.length
    let fracDs :=
      match rest1 with
      | '.' :: r => r.takeWhile (fun ch => ch.isDigit)
      | _ => []
    if intDs = [] ∧ fracDs = [] then none
    else
      let rest2 :=
        match rest1 with
        | '.' :: r => r.drop fracDs.length
        | r => r
      let m := (intDs ++ fracDs).foldl
        (fun n ch => 10 * n + (ch.toNat - 48)) (0 : Nat)
      let fl := fracDs.length
      let e := parseExponent rest2
      let overflow :=
        if 0 ≤ e then DBL_MAX_NUM * 10 ^ fl < m * 10 ^ e.toNat
        else DBL_MAX_NUM * 10 ^ (fl + (-e).toNat) < m
      if overflow then none
      else
        let e8 : Int := e + 8 - (fl : Int)
        some (if 0 ≤ e8 then (m : Int) * 10 ^ e8.toNat
              else ((m / 10 ^ (-e8).toNat : Nat) : Int))
  match s.data.dropWhile isCppSpace with
  | '-' :: rest => (core rest).map (fun v => -v)
  | '+' :: rest => core rest
  | cs => core cs

/-- `toFixedE8` from `recorder.cpp`: the conversion result, or `0`
when `std::stod` throws (the `catch (...) { return 0; }` branch). -/
def toFixedE8 (s : String) : Int :=
  match parseDecimalE8 s with
  | none => 0
  | some v => v

/-- One depth-side slot array from the recorder's `parseStr` lambda:
50 slots, each parsed `price:qty` pair as `some`, a pair without a
colon leaving its slot indeterminate (`none`, the C++ junk slot), and
the zero-fill loop supplying `some (0, 0)` beyond the input. -/
def splitFirstColon : List Char → Option (List Char × List Char)
  | [] => none
  | ch :: rest =>
    if ch = ':' then some ([], rest)
    else (splitFirstColon rest).map (fun p => (ch :: p.1, p.2))

/-- The 50-slot array written by `parseStr` in `recorder.cpp`. -/
def parseDepthSlots (s : String) : List (Option (Int × Int)) :=
  let pairs := (cppSplit ',' s.data).take 50
  let parsed := pairs.map (fun p =>
    match splitFirstColon p.data with
    | none => none
    | some pr => some (toFixedE8 (String.mk pr.1), toFixedE8 (String.mk pr.2)))
  parsed ++ List.replicate (50 - pairs.length) (some (0, 0))

/-- The payload variants of `MarketMsg` (`protocol.h`), as a sum type. -/
inductive MsgPayload where
  | trade (timestamp price qty : Int) (is_buyer_maker : Bool)
  | depth (timestamp : Int) (bids asks : List (Option (Int × Int)))
  | liq (timestamp price qty : Int) (side : Char)
  | ticker (timestamp open_interest funding_rate mark_price : Int)
deriving DecidableEq, Repr

/-- `MarketMsg`: one-byte type tag folded into the payload variant,
plus the one-byte symbol id. -/
structure MarketMsg where
  symbol_id : Nat
  payload : MsgPayload
deriving DecidableEq, Repr

/-- The type-field dispatch of the recorder producer's stdin loop
(`recorder.cpp` main), applied to the split field list: returns the
message pushed into the ring, or `none` when the line is dropped (no
fields, unknown type, too few fields, a `std::stoll` throw caught by
`catch (...)`, or a DEPTH line in visual mode). -/
def dispatchParts (visual : Bool) (parts : List String) : Option MarketMsg :=
  match parts with
  | [] => none
  | ty :: _ =>
    if ty = "TRADE" ∧ 6 ≤ parts.length then
      match stollOpt (parts.getD 1 "") with
      | none => none
      | some ts =>
        some ⟨ID_WLDUSDT, MsgPayload.trade ts (toFixedE8 (parts.getD 4 ""))
          (toFixedE8 (parts.getD 5 "")) (parts.getD 3 "" = "SELL")⟩
    else if ty = "DEPTH" ∧ 5 ≤ parts.length then
      if visual then none
      else
        match stollOpt (parts.getD 1 "") with
        | none => none
        | some ts =>
          some ⟨ID_WLDUSDT, MsgPayload.depth ts
            (parseDepthSlots (parts.getD 3 ""))
            (parseDepthSlots (parts.getD 4 ""))⟩
    else if ty = "LIQ" ∧ 6 ≤ parts.length then
      match stollOpt (parts.getD 1 "") with
      | none => none
      | some ts =>
        some ⟨ID_WLDUSDT, MsgPayload.liq ts (toFixedE8 (parts.getD 4 ""))
          (toFixedE8 (parts.getD 5 ""))
          ((parts.getD 3 "").data.headD (Char.ofNat 0))⟩
    else if ty = "TICKER" ∧ 6 ≤ parts.length then
      match stollOpt (parts.getD 1 "") with
      | none => none
      | some ts =>
        some ⟨ID_WLDUSDT, MsgPayload.ticker ts (toFixedE8 (parts.getD 3 ""))
          (toFixedE8 (parts.getD 4 "")) (toFixedE8 (parts.getD 5 ""))⟩
    else none

/-- One iteration of the recorder producer's stdin loop: skip empty
lines, split on `|`, dispatch on the type field. -/
def processLine (visual : Bool) (line : String) : Option MarketMsg :=
  if line = "" then none
  else dispatchParts visual (cppSplit '|' line.data)

/-- A zero `MarketUpdate`, used as `headD` default in closed statements. -/
def mu0 : MarketUpdate := ⟨0, 0, 0, 0, 0, Char.ofNat 0, Char.ofNat 0⟩

/-- C1: whenever the signal engine's staleness flag is set,
`MarketMakerStrategy::getQuotes` returns both sides inactive, no taker
intent, and reason `SAFETY_LATENCY_GUARD`, regardless of the book,
signals, trap value, or position. -/
theorem mm_safety_gate (m : MarketMakerStrategy)
    (h : isSignalStale m.signals = true) :
    (getQuotes m).bidActive = false ∧ (getQuotes m).askActive = false ∧
    (getQuotes m).isTaker = false ∧
    (getQuotes m).reason = "SAFETY_LATENCY_GUARD" := by
  simp [getQuotes, h, waitQuote]

/-- A concrete strategy state whose signal engine is stale. -/
def staleStrategy : MarketMakerStrategy :=
  ⟨⟨[], []⟩, { initSignalEngine with currentLatency := 600000000,
                                      isStale := true }, 0⟩

/-- Witness for C1 at a concrete stale state. -/
theorem mm_safety_gate_witness :
    isSignalStale staleStrategy.signals = true ∧
    ((getQuotes staleStrategy).bidActive = false ∧
     (getQuotes staleStrategy).askActive = false ∧
     (getQuotes staleStrategy).isTaker = false ∧
     (getQuotes staleStrategy).reason = "SAFETY_LATENCY_GUARD") :=
  ⟨rfl, mm_safety_gate staleStrategy rfl⟩

/-- C10: `MarketMakerStrategy::update` appends the raw event to the
bid sequence when `side = 'B'` and to the ask sequence otherwise, with
no dependence on the event type — trade events included — and removes
or reorders nothing. -/
theorem stratUpdate_appends (m : MarketMakerStrategy) (mu : MarketUpdate) :
    (stratUpdate m mu).book.bids =
      (if mu.side = 'B' then m.book.bids ++ [mu] else m.book.bids) ∧
    (stratUpdate m mu).book.asks =
      (if mu.side = 'B' then m.book.asks else m.book.asks ++ [mu]) := by
  by_cases h : mu.side = 'B' <;> simp [stratUpdate, addOrder, h]

/-- C3 counterexample: a crossed snapshot (best bid 100, best ask 90)
is accepted verbatim by the book rebuild; afterwards both sides are
non-empty and best bid < best ask fails. -/
theorem crossed_snapshot_cex :
    (applySnapshot ⟨[], []⟩ [(100, 1)] [(90, 1)]).bids ≠ [] ∧
    (applySnapshot ⟨[], []⟩ [(100, 1)] [(90, 1)]).asks ≠ [] ∧
    ¬ (((applySnapshot ⟨[], []⟩ [(100, 1)] [(90, 1)]).bids.headD mu0).price <
        ((applySnapshot ⟨[], []⟩ [(100, 1)] [(90, 1)]).asks.headD mu0).price) := by
  decide

/-- Bid-side fold of `applySnapshot` appends the converted levels. -/
theorem foldl_addOrder_bids (ls : List (Int × Int)) (b : OrderBookL3) :
    ls.foldl (fun b l => addOrder b (mkBidUpdate l)) b =
      ⟨b.bids ++ ls.map mkBidUpdate, b.asks⟩ := by
  induction ls generalizing b with
  | nil => simp
  | cons x xs ih =>
    rw [List.foldl_cons, ih]
    simp [addOrder, mkBidUpdate]

/-- Ask-side fold of `applySnapshot` appends the converted levels. -/
theorem foldl_addOrder_asks (ls : List (Int × Int)) (b : OrderBookL3) :
    ls.foldl (fun b l => addOrder b (mkAskUpdate l)) b =
      ⟨b.bids, b.asks ++ ls.map mkAskUpdate⟩ := by
  induction ls generalizing b with
  | nil => simp
  | cons x xs ih =>
    rw [List.foldl_cons, ih]
    simp [addOrder, mkAskUpdate]

/-- C3 amended: the book performs no crossed-snapshot rejection at
all — `applySnapshot` installs exactly the given levels, crossed or
not; only the strategy later repairs crossing in its emitted quotes. -/
theorem applySnapshot_accepts (book : OrderBookL3)
    (bids asks : List (Int × Int)) :
    (applySnapshot book bids asks).bids = bids.map mkBidUpdate ∧
    (applySnapshot book bids asks).asks = asks.map mkAskUpdate := by
  simp [applySnapshot, foldl_addOrder_bids, foldl_addOrder_asks, clearBook]

/-- The book of the C6 counterexample: both sides non-empty, both
top-of-book volumes zero. -/
def bkC6 : OrderBookL3 :=
  ⟨[⟨0, 0, 0, 100, 0, 'B', Char.ofNat 0⟩],
   [⟨0, 0, 0, 200, 0, 'A', Char.ofNat 0⟩]⟩

/-- C6 counterexample: with both sides non-empty and both top volumes
zero, `getMicroPrice` returns the midpoint 150, not zero. -/
theorem microprice_zero_vol_cex :
    bkC6.bids ≠ [] ∧ bkC6.asks ≠ [] ∧
    (bkC6.bids.headD mu0).size = 0 ∧ (bkC6.asks.headD mu0).size = 0 ∧
    getMicroPrice bkC6 = 150 ∧ getMicroPrice bkC6 ≠ 0 := by
  decide

/-- C6 amended: `getMicroPrice` returns zero whenever either side is
empty (in particular when both are); when both sides are non-empty and
the two top-of-book volumes sum to zero it returns the truncated
midpoint `(best_bid + best_ask) / 2`. -/
theorem microprice_edge_amended (b : OrderBookL3) :
    ((b.bids = [] ∨ b.asks = []) → getMicroPrice b = 0) ∧
    (∀ bb ba, b.bids.head? = some bb → b.asks.head? = some ba →
      bb.size + ba.size = 0 →
      getMicroPrice b = (bb.price + ba.price).tdiv 2) := by
  obtain ⟨bids, asks⟩ := b
  constructor
  · rintro (h | h)
    · subst h; simp [getMicroPrice]
    · subst h; cases bids <;> simp [getMicroPrice]
  · intro bb ba hbb hba hz
    cases bids with
    | nil => simp at hbb
    | cons x xs =>
      cases asks with
      | nil => simp at hba
      | cons y ys =>
        simp only [List.head?_cons, Option.some.injEq] at hbb hba
        subst hbb; subst hba
        simp [getMicroPrice, hz]

/-- Witness for C6 amended at the concrete zero-volume book. -/
theorem microprice_edge_amended_witness :
    getMicroPrice bkC6 = ((100 : Int) + 200).tdiv 2 :=
  (microprice_edge_amended bkC6).2 _ _ rfl rfl (by decide)

/-- The book of the C5 counterexample: top-5 sums differ by one part in
two billion, which the E8 division rounds to zero. -/
def bkC5 : OrderBookL3 :=
  ⟨[⟨0, 0, 0, 100, 1000000000, 'B', Char.ofNat 0⟩],
   [⟨0, 0, 0, 200, 999999999, 'A', Char.ofNat 0⟩]⟩

/-- C5 counterexample: both sides non-empty with non-negative sizes and
a strictly positive bid-minus-ask top-5 difference, yet `getImbalance`
returns zero. -/
theorem imbalance_sign_cex :
    bkC5.bids ≠ [] ∧ bkC5.asks ≠ [] ∧
    0 ≤ (bkC5.bids.headD mu0).size ∧ 0 ≤ (bkC5.asks.headD mu0).size ∧
    0 < sumTop5Sizes bkC5.bids - sumTop5Sizes bkC5.asks ∧
    getImbalance bkC5 = 0 := by
  decide

/-- Top-5 size sums are non-negative when all level sizes are. -/
theorem sumTop5_nonneg (l : List MarketUpdate)
    (h : ∀ u ∈ l, 0 ≤ u.size) : 0 ≤ sumTop5Sizes l := by
  unfold sumTop5Sizes
  apply List.sum_nonneg
  intro x hx
  simp only [List.mem_map] at hx
  obtain ⟨u, hu, rfl⟩ := hx
  exact h u (List.take_subset 5 l hu)

/-- Truncating division of integers is positive once the dividend
reaches the (positive) divisor. -/
theorem tdiv_pos_of_le {x t : Int} (ht : 0 < t) (h : t ≤ x) :
    0 < x.tdiv t := by
  have hx : 0 ≤ x := le_trans (le_of_lt ht) h
  obtain ⟨m, rfl⟩ := Int.eq_ofNat_of_zero_le hx
  obtain ⟨n, rfl⟩ := Int.eq_ofNat_of_zero_le (le_of_lt ht)
  have he : ((m : Int)).tdiv ((n : Int)) = ((m / n : Nat) : Int) := rfl
  rw [he]
  have hn : 0 < n := by exact_mod_cast ht
  have hnm : n ≤ m := by exact_mod_cast h
  exact_mod_cast Nat.div_pos hnm hn

/-- C5 amended: the sign of `getImbalance` never contradicts the sign
of the top-5 difference — it is positive only when bids exceed asks,
negative only when asks exceed bids, and zero when they are equal —
and it equals the sign exactly whenever the difference is at least
`total / 10^8` (otherwise the E8 division may round a non-zero
difference to zero). -/
theorem imbalance_sign_amended (b : OrderBookL3)
    (hb : b.bids ≠ []) (ha : b.asks ≠ [])
    (hnb : ∀ u ∈ b.bids, 0 ≤ u.size) (hna : ∀ u ∈ b.asks, 0 ≤ u.size) :
    (0 < getImbalance b → sumTop5Sizes b.asks < sumTop5Sizes b.bids) ∧
    (getImbalance b < 0 → sumTop5Sizes b.bids < sumTop5Sizes b.asks) ∧
    (sumTop5Sizes b.bids = sumTop5Sizes b.asks → getImbalance b = 0) ∧
    (sumTop5Sizes b.bids + sumTop5Sizes b.asks ≤
        |sumTop5Sizes b.bids - sumTop5Sizes b.asks| * PRICE_SCALE →
      ((0 < getImbalance b ↔ sumTop5Sizes b.asks < sumTop5Sizes b.bids) ∧
       (getImbalance b < 0 ↔ sumTop5Sizes b.bids < sumTop5Sizes b.asks))) := by
  have hB := sumTop5_nonneg _ hnb
  have hA := sumTop5_nonneg _ hna
  set B := sumTop5Sizes b.bids with hBdef
  set A := sumTop5Sizes b.asks with hAdef
  have hg : getImbalance b = if B + A = 0 then 0 else
      (if B - A < 0 then -((|B - A| * PRICE_SCALE).tdiv (B + A))
       else (|B - A| * PRICE_SCALE).tdiv (B + A)) := by
    simp [getImbalance, hb, ha, ← hBdef, ← hAdef]
  by_cases h0 : B + A = 0
  · have hB0 : B = 0 := by omega
    have hA0 : A = 0 := by omega
    rw [hg]
    simp [h0, hB0, hA0]
  · have htot : 0 < B + A := by omega
    have hr0 : 0 ≤ (|B - A| * PRICE_SCALE).tdiv (B + A) :=
      Int.tdiv_nonneg (mul_nonneg (abs_nonneg _) (by norm_num [PRICE_SCALE]))
        (le_of_lt htot)
    rcases lt_trichotomy (B - A) 0 with hd | hd | hd
    · have hgl : getImbalance b = -((|B - A| * PRICE_SCALE).tdiv (B + A)) := by
        rw [hg]; simp [h0, hd]
      refine ⟨?_, ?_, ?_, ?_⟩
      · intro hpos; omega
      · intro _; omega
      · intro heq; omega
      · intro hth
        have hpos : 0 < (|B - A| * PRICE_SCALE).tdiv (B + A) :=
          tdiv_pos_of_le htot hth
        constructor
        · constructor
          · intro hcontra; omega
          · intro hcontra; omega
        · constructor
          · intro _; omega
          · intro _; omega
    · have hgl : getImbalance b = 0 := by
        rw [hg]
        simp [h0, hd]
      refine ⟨?_, ?_, ?_, ?_⟩
      · intro hpos; omega
      · intro hneg; omega
      · intro _; exact hgl
      · intro hth
        rw [hd] at hth
        simp only [abs_zero, zero_mul] at hth
        omega
    · have hgl : getImbalance b = (|B - A| * PRICE_SCALE).tdiv (B + A) := by
        rw [hg]; simp [h0, not_lt.mpr (le_of_lt hd), hd]
      refine ⟨?_, ?_, ?_, ?_⟩
      · intro _; omega
      · intro hneg; omega
      · intro heq; omega
      · intro hth
        have hpos : 0 < (|B - A| * PRICE_SCALE).tdiv (B + A) :=
          tdiv_pos_of_le htot hth
        constructor
        · constructor
          · intro _; omega
          · intro _; omega
        · constructor
          · intro hcontra; omega
          · intro hcontra; omega

/-- The book of the C5 amended witness: difference 2 on total 4. -/
def bkC5w : OrderBookL3 :=
  ⟨[⟨0, 0, 0, 100, 3, 'B', Char.ofNat 0⟩],
   [⟨0, 0, 0, 200, 1, 'A', Char.ofNat 0⟩]⟩

/-- Witness for C5 amended at a concrete book whose imbalance is above
the rounding floor: the sign law concludes strict positivity. -/
theorem imbalance_sign_amended_witness :
    0 < getImbalance bkC5w ∧ getImbalance bkC5w = 50000000 :=
  ⟨((imbalance_sign_amended bkC5w (by decide) (by decide) (by decide)
      (by decide)).2.2.2 (by decide)).1.mpr (by decide), by decide⟩

/-- C7: under `LiveEngine::checkFills` at trade price `P`, an order is
deactivated exactly when it was active and its side/price condition
crosses `P` — all other orders are returned unchanged — and the
account state is the left fold of the per-fill update over the filled
orders in order-list order. -/
theorem checkFills_spec (P : ℚ) (st : AccountState)
    (orders : List LiveOrder) :
    (checkFills P st orders).2 =
      orders.map (fun o =>
        if o.active ∧ fillCond P o then { o with active := false } else o) ∧
    (checkFills P st orders).1 =
      (orders.filter (fun o => o.active && fillCond P o)).foldl applyFill st := by
  induction orders generalizing st with
  | nil => simp [checkFills]
  | cons o rest ih =>
    by_cases h : o.active ∧ fillCond P o
    · have hb : (o.active && fillCond P o) = true := by
        simp [h.1, h.2]
      simp [checkFills, h, hb, List.filter_cons, (ih (applyFill st o)).1,
        (ih (applyFill st o)).2]
    · have hb : (o.active && fillCond P o) = false := by
        rw [← Bool.not_eq_true, Bool.and_eq_true]
        exact h
      simp [checkFills, h, hb, List.filter_cons, (ih st).1, (ih st).2]

/-- All pushes succeed while the ring has room, writing the items at
consecutive slots and leaving earlier slots untouched. -/
theorem pushList_ok {α : Type} {C : Nat} (xs : List α) :
    ∀ (k : Nat) (f : Nat → α), k + xs.length ≤ C →
    (pushList (⟨f, k, 0⟩ : RingBuffer α C) xs).2 =
      List.replicate xs.length true ∧
    (pushList (⟨f, k, 0⟩ : RingBuffer α C) xs).1.head = k + xs.length ∧
    (pushList (⟨f, k, 0⟩ : RingBuffer α C) xs).1.tail = 0 ∧
    (∀ i, i < k → (pushList (⟨f, k, 0⟩ : RingBuffer α C) xs).1.buffer i = f i) ∧
    (∀ j (hj : j < xs.length),
      (pushList (⟨f, k, 0⟩ : RingBuffer α C) xs).1.buffer (k + j) =
        xs.get ⟨j, hj⟩) := by
  induction xs with
  | nil =>
    intro k f h
    simp [pushList]
  | cons x rest ih =>
    intro k f h
    simp only [List.length_cons] at h
    have hklt : k + 1 < C + 1 := by omega
    have hpush : rbPush (⟨f, k, 0⟩ : RingBuffer α C) x =
        (⟨Function.update f k x, k + 1, 0⟩, true) := by
      simp [rbPush, Nat.mod_eq_of_lt hklt]
    set T := pushList (⟨Function.update f k x, k + 1, 0⟩ : RingBuffer α C) rest
      with hT
    have hstep : pushList (⟨f, k, 0⟩ : RingBuffer α C) (x :: rest) =
        (T.1, true :: T.2) := by
      simp [pushList, hpush, hT]
    obtain ⟨h1, h2, h3, h4, h5⟩ := ih (k + 1) (Function.update f k x) (by omega)
    rw [← hT] at h1 h2 h3 h4 h5
    rw [hstep]
    refine ⟨?_, ?_, ?_, ?_, ?_⟩
    · show true :: T.2 = List.replicate (x :: rest).length true
      simp [h1, List.replicate_succ]
    · show T.1.head = k + (x :: rest).length
      rw [h2]
      simp only [List.length_cons]
      omega
    · show T.1.tail = 0
      exact h3
    · intro i hi
      show T.1.buffer i = f i
      rw [h4 i (by omega)]
      have hik : i ≠ k := by omega
      exact Function.update_noteq hik x f
    · intro j hj
      show T.1.buffer (k + j) = (x :: rest).get ⟨j, hj⟩
      cases j with
      | zero =>
        have hk := h4 k (by omega)
        rw [Nat.add_zero, hk, Function.update_same]
        rfl
      | succ j' =>
        have hj' : j' < rest.length := by
          simp only [List.length_cons] at hj; omega
        have harith : k + (j' + 1) = (k + 1) + j' := by omega
        rw [harith, h5 j' hj']
        rfl

/-- Pops return the buffered slots in index order while the ring is
non-empty, advancing only the read index. -/
theorem popN_ok {α : Type} {C : Nat} (n : Nat) :
    ∀ (j : Nat) (f : Nat → α) (h : Nat), j + n ≤ h → h ≤ C →
    (popN (⟨f, h, j⟩ : RingBuffer α C) n).2 =
      (List.range n).map (fun i => some (f (j + i))) ∧
    (popN (⟨f, h, j⟩ : RingBuffer α C) n).1 = ⟨f, h, j + n⟩ := by
  induction n with
  | zero =>
    intro j f h _ _
    simp [popN]
  | succ n ih =>
    intro j f h hjn hc
    have hj : j ≠ h := by omega
    have hjlt : j + 1 < C + 1 := by omega
    have hpop : rbPop (⟨f, h, j⟩ : RingBuffer α C) =
        (⟨f, h, j + 1⟩, some (f j)) := by
      simp [rbPop, hj, Nat.mod_eq_of_lt hjlt]
    have hstep : popN (⟨f, h, j⟩ : RingBuffer α C) (n + 1) =
        ((popN (⟨f, h, j + 1⟩ : RingBuffer α C) n).1,
         some (f j) :: (popN (⟨f, h, j + 1⟩ : RingBuffer α C) n).2) := by
      simp [popN, hpop]
    obtain ⟨h1, h2⟩ := ih (j + 1) f h (by omega) hc
    rw [hstep]
    constructor
    · rw [h1, List.range_succ_eq_map, List.map_cons, List.map_map]
      simp only [Nat.add_zero]
      congr 1
      apply List.map_congr_left
      intro i _
      simp only [Function.comp_apply]
      congr 2
      omega
    · have harith : j + 1 + n = j + (n + 1) := by omega
      rw [h2, harith]

/-- C2: `N ≤ C` pushes into an initially empty `RingBuffer<T, C>` all
return true, and `N` subsequent pops yield exactly the pushed items in
FIFO order. -/
theorem ring_fifo {α : Type} (C : Nat) (d : α) (xs : List α)
    (h : xs.length ≤ C) :
    (pushList (emptyRB α C d) xs).2 = List.replicate xs.length true ∧
    (popN (pushList (emptyRB α C d) xs).1 xs.length).2 = xs.map some := by
  show (pushList (⟨fun _ => d, 0, 0⟩ : RingBuffer α C) xs).2 =
      List.replicate xs.length true ∧
    (popN (pushList (⟨fun _ => d, 0, 0⟩ : RingBuffer α C) xs).1 xs.length).2 =
      xs.map some
  obtain ⟨h1, h2, h3, _h4, h5⟩ :=
    @pushList_ok α C xs 0 (fun _ => d) (by omega)
  refine ⟨h1, ?_⟩
  set R := (pushList (⟨fun _ => d, 0, 0⟩ : RingBuffer α C) xs).1 with hR
  have hstate : R = (⟨R.buffer, 0 + xs.length, 0⟩ : RingBuffer α C) := by
    have heta : R = (⟨R.buffer, R.head, R.tail⟩ : RingBuffer α C) := rfl
    rw [heta, h2, h3]
  rw [hstate]
  obtain ⟨hp1, _⟩ := @popN_ok α C xs.length 0 R.buffer (0 + xs.length)
    (by omega) (by omega)
  rw [hp1]
  apply List.ext_get
  · simp
  · intro i hi1 hi2
    have hi : i < xs.length := by simpa using hi2
    simp only [List.get_map, List.get_range]
    rw [h5 i hi]

/-- Witness for C2: three pushes into a capacity-3 ring all succeed
and pop back in order. -/
theorem ring_fifo_witness :
    ([5, 6, 7] : List Int).length ≤ 3 ∧
    ((pushList (emptyRB Int 3 0) [5, 6, 7]).2 =
        List.replicate ([5, 6, 7] : List Int).length true ∧
     (popN (pushList (emptyRB Int 3 0) [5, 6, 7]).1
        ([5, 6, 7] : List Int).length).2 = ([5, 6, 7] : List Int).map some) :=
  ⟨by decide, ring_fifo 3 0 [5, 6, 7] (by decide)⟩

/-- The records currently held in a circular window (oldest first):
slot `(head + WINDOW_SIZE - count + i) % WINDOW_SIZE` holds the i-th
oldest record. -/
def windowOf (hist : Nat → TradeRecord) (head count : Nat) :
    List TradeRecord :=
  (List.range count).map
    (fun i => hist ((head + WINDOW_SIZE - count + i) % WINDOW_SIZE))

/-- The trade records currently held in the signal engine's window. -/
def windowRecords (s : SignalEngine) : List TradeRecord :=
  windowOf s.history s.head s.count

/-- Sum of the sizes of the window records whose taker side is `'B'`. -/
def buySideSum (l : List TradeRecord) : Int :=
  (l.map (fun r => if r.side = 'B' then r.size else 0)).sum

/-- Sum of the sizes of the remaining (non-`'B'`) window records. -/
def sellSideSum (l : List TradeRecord) : Int :=
  (l.map (fun r => if r.side = 'B' then 0 else r.size)).sum

/-- Total volume held in a window. -/
def totalVolume (l : List TradeRecord) : Int :=
  (l.map (fun r => r.size)).sum

/-- The head/count/running-total invariant of the signal engine. -/
def SEInv (s : SignalEngine) : Prop :=
  s.head < WINDOW_SIZE ∧ s.count ≤ WINDOW_SIZE ∧
  s.runningBuyVol = buySideSum (windowRecords s) ∧
  s.runningSellVol = sellSideSum (windowRecords s)

/-- Appending to a non-full window: the new window is the old one plus
the new record. -/
theorem windowOf_append (hist : Nat → TradeRecord) (h c : Nat)
    (r : TradeRecord) (hh : h < WINDOW_SIZE) (hc : c < WINDOW_SIZE) :
    windowOf (Function.update hist h r) ((h + 1) % WINDOW_SIZE) (c + 1) =
      windowOf hist h c ++ [r] := by
  simp only [windowOf, WINDOW_SIZE] at *
  rw [List.range_succ, List.map_append]
  congr 1
  · apply List.map_congr_left
    intro i hi
    rw [List.mem_range] at hi
    have hidx : ((h + 1) % 1000 + 1000 - (c + 1) + i) % 1000 =
        (h + 1000 - c + i) % 1000 := by omega
    rw [hidx]
    have hne : (h + 1000 - c + i) % 1000 ≠ h := by omega
    rw [Function.update_noteq hne]
  · simp only [List.map_cons, List.map_nil]
    have hidx : ((h + 1) % 1000 + 1000 - (c + 1) + c) % 1000 = h := by omega
    rw [hidx, Function.update_same]

/-- A full window decomposes as its oldest record followed by the
rotated remainder. -/
theorem windowOf_full_head (hist : Nat → TradeRecord) (h : Nat)
    (hh : h < WINDOW_SIZE) :
    windowOf hist h WINDOW_SIZE =
      hist h :: (List.range (WINDOW_SIZE - 1)).map
        (fun i => hist ((h + 1 + i) % WINDOW_SIZE)) := by
  simp only [windowOf, WINDOW_SIZE] at hh ⊢
  have hm : (1000 : Nat) - 1 = 999 := by norm_num
  rw [hm]
  have hrange : List.range 1000 = 0 :: (List.range 999).map Nat.succ := by
    rw [show (1000 : Nat) = 999 + 1 by norm_num, List.range_succ_eq_map]
  rw [hrange, List.map_cons, List.map_map]
  have hidx0 : (h + 1000 - 1000 + 0) % 1000 = h := by omega
  rw [hidx0]
  apply congrArg (List.cons (hist h))
  apply List.map_congr_left
  intro i hi
  rw [List.mem_range] at hi
  simp only [Function.comp_apply]
  have hidx : (h + 1000 - 1000 + Nat.succ i) % 1000 = (h + 1 + i) % 1000 := by
    omega
  rw [hidx]

/-- Overwriting the oldest slot of a full window: the new window is
the rotated remainder plus the new record. -/
theorem windowOf_full_rotate (hist : Nat → TradeRecord) (h : Nat)
    (r : TradeRecord) (hh : h < WINDOW_SIZE) :
    windowOf (Function.update hist h r) ((h + 1) % WINDOW_SIZE) WINDOW_SIZE =
      (List.range (WINDOW_SIZE - 1)).map
        (fun i => hist ((h + 1 + i) % WINDOW_SIZE)) ++ [r] := by
  simp only [windowOf, WINDOW_SIZE] at hh ⊢
  have hm : (1000 : Nat) - 1 = 999 := by norm_num
  rw [hm]
  have hrange : List.range 1000 = List.range 999 ++ [999] := by
    rw [show (1000 : Nat) = 999 + 1 by norm_num, List.range_succ]
  rw [hrange, List.map_append]
  have hlast : List.map
      (fun i => Function.update hist h r
        (((h + 1) % 1000 + 1000 - 1000 + i) % 1000)) [999] = [r] := by
    simp only [List.map_cons, List.map_nil]
    have hidx : ((h + 1) % 1000 + 1000 - 1000 + 999) % 1000 = h := by omega
    rw [hidx, Function.update_same]
  rw [hlast]
  apply congrArg (fun l => l ++ [r])
  apply List.map_congr_left
  intro i hi
  rw [List.mem_range] at hi
  have hidx : ((h + 1) % 1000 + 1000 - 1000 + i) % 1000 =
      (h + 1 + i) % 1000 := by omega
  rw [hidx]
  have hne : (h + 1 + i) % 1000 ≠ h := by omega
  rw [Function.update_noteq hne]

/-- `buySideSum` distributes over append. -/
theorem buySideSum_append (l1 l2 : List TradeRecord) :
    buySideSum (l1 ++ l2) = buySideSum l1 + buySideSum l2 := by
  simp [buySideSum]

/-- `sellSideSum` distributes over append. -/
theorem sellSideSum_append (l1 l2 : List TradeRecord) :
    sellSideSum (l1 ++ l2) = sellSideSum l1 + sellSideSum l2 := by
  simp [sellSideSum]

/-- Buy-side and sell-side sums partition the total volume. -/
theorem buy_sell_total (l : List TradeRecord) :
    buySideSum l + sellSideSum l = totalVolume l := by
  induction l with
  | nil => simp [buySideSum, sellSideSum, totalVolume]
  | cons r t ih =>
    by_cases hs : r.side = 'B' <;>
      simp only [buySideSum, sellSideSum, totalVolume, List.map_cons,
        List.sum_cons, hs, if_pos, if_neg, if_true, if_false] <;>
      simp only [buySideSum, sellSideSum, totalVolume] at ih <;> omega

/-- A partial side sum is non-negative when all window sizes are. -/
theorem buySideSum_nonneg (l : List TradeRecord)
    (h : ∀ r ∈ l, 0 ≤ r.size) : 0 ≤ buySideSum l := by
  apply List.sum_nonneg
  intro x hx
  simp only [List.mem_map] at hx
  obtain ⟨r, hr, rfl⟩ := hx
  by_cases hs : r.side = 'B'
  · simpa [hs] using h r hr
  · simp [hs]

/-- As `buySideSum_nonneg`, for the sell side. -/
theorem sellSideSum_nonneg (l : List TradeRecord)
    (h : ∀ r ∈ l, 0 ≤ r.size) : 0 ≤ sellSideSum l := by
  apply List.sum_nonneg
  intro x hx
  simp only [List.mem_map] at hx
  obtain ⟨r, hr, rfl⟩ := hx
  by_cases hs : r.side = 'B'
  · simp [hs]
  · simpa [hs] using h r hr

/-- The state written by `addEvent` on a trade, with the running-total
updates expressed through the eviction and insertion contributions. -/
theorem addEvent_trade_eq (s : SignalEngine) (mu : MarketUpdate)
    (ht : mu.type = 'T') :
    addEvent s mu =
      { history := Function.update s.history s.head
          ⟨mu.price, mu.size, mu.side, mu.timestamp_exchange⟩
        head := (s.head + 1) % WINDOW_SIZE
        count := if s.count = WINDOW_SIZE then s.count else s.count + 1
        runningBuyVol :=
          (if s.count = WINDOW_SIZE then
            (if (s.history s.head).side = 'B' then
              s.runningBuyVol - (s.history s.head).size
            else s.runningBuyVol)
          else s.runningBuyVol) + (if mu.side = 'B' then mu.size else 0)
        runningSellVol :=
          (if s.count = WINDOW_SIZE then
            (if (s.history s.head).side = 'B' then s.runningSellVol
            else s.runningSellVol - (s.history s.head).size)
          else s.runningSellVol) + (if mu.side = 'B' then 0 else mu.size)
        currentLatency := mu.timestamp_local - mu.timestamp_exchange
        isStale :=
          decide (mu.timestamp_local - mu.timestamp_exchange >
            MAX_LATENCY_NS) } := by
  simp only [addEvent, ht]
  by_cases hfull : s.count = WINDOW_SIZE <;>
    by_cases hts : (s.history s.head).side = 'B' <;>
    by_cases hms : mu.side = 'B' <;>
    simp [hfull, hts, hms]

/-- `buySideSum` over a cons. -/
theorem buySideSum_cons (x : TradeRecord) (l : List TradeRecord) :
    buySideSum (x :: l) =
      (if x.side = 'B' then x.size else 0) + buySideSum l := by
  simp [buySideSum]

/-- `sellSideSum` over a cons. -/
theorem sellSideSum_cons (x : TradeRecord) (l : List TradeRecord) :
    sellSideSum (x :: l) =
      (if x.side = 'B' then 0 else x.size) + sellSideSum l := by
  simp [sellSideSum]

/-- The full signal-engine invariant: index bounds, running totals as
window side sums, and non-negative window sizes. -/
def SEInvN (s : SignalEngine) : Prop :=
  s.head < WINDOW_SIZE ∧ s.count ≤ WINDOW_SIZE ∧
  s.runningBuyVol = buySideSum (windowRecords s) ∧
  s.runningSellVol = sellSideSum (windowRecords s) ∧
  ∀ r ∈ windowRecords s, 0 ≤ r.size

/-- `buySideSum` of the empty window. -/
theorem buySideSum_nil : buySideSum [] = 0 := by simp [buySideSum]

/-- `sellSideSum` of the empty window. -/
theorem sellSideSum_nil : sellSideSum [] = 0 := by simp [sellSideSum]

/-- `addEvent` preserves the signal-engine invariant. -/
theorem addEvent_pres (s : SignalEngine) (mu : MarketUpdate)
    (hinv : SEInvN s) (hmu : mu.type = 'T' → 0 ≤ mu.size) :
    SEInvN (addEvent s mu) := by
  obtain ⟨hh, hc, hbuy, hsell, hnn⟩ := hinv
  by_cases ht : mu.type = 'T'
  · rw [addEvent_trade_eq s mu ht]
    by_cases hfull : s.count = WINDOW_SIZE
    · have hW : windowRecords s =
          s.history s.head :: (List.range (WINDOW_SIZE - 1)).map
            (fun i => s.history ((s.head + 1 + i) % WINDOW_SIZE)) := by
        rw [windowRecords, hfull]
        exact windowOf_full_head s.history s.head hh
      have hW' := windowOf_full_rotate s.history s.head
        ⟨mu.price, mu.size, mu.side, mu.timestamp_exchange⟩ hh
      rw [hW, buySideSum_cons] at hbuy
      rw [hW, sellSideSum_cons] at hsell
      simp only [SEInvN, windowRecords, if_pos hfull]
      rw [hfull, hW']
      refine ⟨Nat.mod_lt _ (by norm_num [WINDOW_SIZE]), le_refl _, ?_, ?_, ?_⟩
      · rw [buySideSum_append, buySideSum_cons, buySideSum_nil]
        by_cases hts : (s.history s.head).side = 'B' <;>
          by_cases hms : mu.side = 'B' <;>
          simp [hts, hms] at hbuy ⊢ <;> omega
      · rw [sellSideSum_append, sellSideSum_cons, sellSideSum_nil]
        by_cases hts : (s.history s.head).side = 'B' <;>
          by_cases hms : mu.side = 'B' <;>
          simp [hts, hms] at hsell ⊢ <;> omega
      · intro x hx
        rcases List.mem_append.mp hx with hx | hx
        · exact hnn x (by rw [hW]; exact List.mem_cons_of_mem _ hx)
        · rcases List.mem_singleton.mp hx with rfl
          exact hmu ht
    · have hclt : s.count < WINDOW_SIZE := lt_of_le_of_ne hc hfull
      have hW' := windowOf_append s.history s.head s.count
        ⟨mu.price, mu.size, mu.side, mu.timestamp_exchange⟩ hh hclt
      simp only [SEInvN, windowRecords, if_neg hfull]
      rw [hW']
      rw [windowRecords] at hbuy hsell hnn
      refine ⟨Nat.mod_lt _ (by norm_num [WINDOW_SIZE]), by omega, ?_, ?_, ?_⟩
      · rw [buySideSum_append, buySideSum_cons, buySideSum_nil, ← hbuy]
        by_cases hms : mu.side = 'B' <;> simp [hms]
      · rw [sellSideSum_append, sellSideSum_cons, sellSideSum_nil, ← hsell]
        by_cases hms : mu.side = 'B' <;> simp [hms]
      · intro x hx
        rcases List.mem_append.mp hx with hx | hx
        · exact hnn x hx
        · rcases List.mem_singleton.mp hx with rfl
          exact hmu ht
  · have heq : addEvent s mu = { s with
        currentLatency := mu.timestamp_local - mu.timestamp_exchange,
        isStale := decide (mu.timestamp_local - mu.timestamp_exchange >
          MAX_LATENCY_NS) } := by
      simp [addEvent, ht]
    rw [heq]
    exact ⟨hh, hc, hbuy, hsell, hnn⟩

/-- A reachable signal-engine state: the fold of `addEvent` over an
event sequence from the freshly constructed engine. -/
def runEvents (events : List MarketUpdate) : SignalEngine :=
  events.foldl addEvent initSignalEngine

/-- The invariant holds at construction. -/
theorem seInvN_init : SEInvN initSignalEngine := by
  refine ⟨by norm_num [initSignalEngine, WINDOW_SIZE],
    by norm_num [initSignalEngine, WINDOW_SIZE], ?_, ?_, ?_⟩ <;>
    simp [initSignalEngine, windowRecords, windowOf, buySideSum, sellSideSum]

/-- The invariant is preserved along any event fold. -/
theorem seInvN_foldl (events : List MarketUpdate) :
    ∀ s : SignalEngine, SEInvN s →
    (∀ mu ∈ events, mu.type = 'T' → 0 ≤ mu.size) →
    SEInvN (events.foldl addEvent s) := by
  induction events with
  | nil => intro s hs _; simpa using hs
  | cons mu rest ih =>
    intro s hs hp
    rw [List.foldl_cons]
    exact ih (addEvent s mu) (addEvent_pres s mu hs (hp mu (by simp)))
      (fun x hx => hp x (List.mem_cons_of_mem _ hx))

/-- Every reachable state with non-negative trade sizes satisfies the
invariant. -/
theorem seInvN_runEvents (events : List MarketUpdate)
    (hpos : ∀ mu ∈ events, mu.type = 'T' → 0 ≤ mu.size) :
    SEInvN (runEvents events) :=
  seInvN_foldl events initSignalEngine seInvN_init hpos

/-- C9: after any sequence of `addEvent` calls with non-negative trade
sizes, `runningBuyVol` is the sum of the sizes of the `'B'`-side
records currently in the circular window and `runningSellVol` the sum
of the remaining records' sizes; hence both totals are non-negative
and they add up to the window's total volume. -/
theorem signal_running_totals (events : List MarketUpdate)
    (hpos : ∀ mu ∈ events, mu.type = 'T' → 0 ≤ mu.size) :
    (runEvents events).runningBuyVol =
      buySideSum (windowRecords (runEvents events)) ∧
    (runEvents events).runningSellVol =
      sellSideSum (windowRecords (runEvents events)) ∧
    0 ≤ (runEvents events).runningBuyVol ∧
    0 ≤ (runEvents events).runningSellVol ∧
    (runEvents events).runningBuyVol + (runEvents events).runningSellVol =
      totalVolume (windowRecords (runEvents events)) := by
  obtain ⟨_, _, hbuy, hsell, hnn⟩ := seInvN_runEvents events hpos
  refine ⟨hbuy, hsell, ?_, ?_, ?_⟩
  · rw [hbuy]; exact buySideSum_nonneg _ hnn
  · rw [hsell]; exact sellSideSum_nonneg _ hnn
  · rw [hbuy, hsell]; exact buy_sell_total _

/-- The events of the C9/C4 witnesses: one taker-buy trade of size 5
and one taker-sell trade of size 3. -/
def evW : List MarketUpdate :=
  [⟨10, 20, 0, 100, 5, 'B', 'T'⟩, ⟨11, 21, 0, 101, 3, 'A', 'T'⟩]

/-- Witness for C9 at a concrete two-trade sequence. -/
theorem signal_running_totals_witness :
    (runEvents evW).runningBuyVol =
      buySideSum (windowRecords (runEvents evW)) ∧
    (runEvents evW).runningSellVol =
      sellSideSum (windowRecords (runEvents evW)) ∧
    0 ≤ (runEvents evW).runningBuyVol ∧
    0 ≤ (runEvents evW).runningSellVol ∧
    (runEvents evW).runningBuyVol + (runEvents evW).runningSellVol =
      totalVolume (windowRecords (runEvents evW)) :=
  signal_running_totals evW (by decide)

/-- Truncating division by a positive divisor is bounded by `K` once
the dividend is at most `t * K`. -/
theorem tdiv_le_of_le {x t K : Int} (hx : 0 ≤ x) (ht : 0 < t) (hK : 0 ≤ K)
    (h : x ≤ t * K) : x.tdiv t ≤ K := by
  obtain ⟨m, rfl⟩ := Int.eq_ofNat_of_zero_le hx
  obtain ⟨n, rfl⟩ := Int.eq_ofNat_of_zero_le (le_of_lt ht)
  obtain ⟨k, rfl⟩ := Int.eq_ofNat_of_zero_le hK
  have he : ((m : Int)).tdiv ((n : Int)) = ((m / n : Nat) : Int) := rfl
  rw [he]
  have hn : 0 < n := by exact_mod_cast ht
  have hmk : m ≤ n * k := by exact_mod_cast h
  have hdiv : m / n ≤ k := by
    calc m / n ≤ (n * k) / n := Nat.div_le_div_right hmk
    _ = k := Nat.mul_div_cancel_left k hn
  exact_mod_cast hdiv

/-- C4: in every reachable signal-engine state with non-negative trade
sizes, the VPIN value `(|buy − sell| · 10^8 / (buy + sell)) · sign`
satisfies `|VPIN| ≤ 10^8`. -/
theorem vpin_bounded (events : List MarketUpdate)
    (hpos : ∀ mu ∈ events, mu.type = 'T' → 0 ≤ mu.size) :
    |getVPIN (runEvents events)| ≤ 100000000 := by
  obtain ⟨_, _, hbuy, hsell, hnn⟩ := seInvN_runEvents events hpos
  have hB : 0 ≤ (runEvents events).runningBuyVol := by
    rw [hbuy]; exact buySideSum_nonneg _ hnn
  have hS : 0 ≤ (runEvents events).runningSellVol := by
    rw [hsell]; exact sellSideSum_nonneg _ hnn
  simp only [getVPIN]
  set B := (runEvents events).runningBuyVol with hBdef
  set S := (runEvents events).runningSellVol with hSdef
  by_cases h0 : B + S = 0
  · rw [if_pos h0]
    norm_num
  · rw [if_neg h0]
    have htot : 0 < B + S := by omega
    have hnum : 0 ≤ |B - S| * PRICE_SCALE :=
      mul_nonneg (abs_nonneg _) (by norm_num [PRICE_SCALE])
    have hr0 : 0 ≤ (|B - S| * PRICE_SCALE).tdiv (B + S) :=
      Int.tdiv_nonneg hnum (le_of_lt htot)
    have habs : |B - S| ≤ B + S := abs_le.mpr ⟨by omega, by omega⟩
    have hle : (|B - S| * PRICE_SCALE).tdiv (B + S) ≤ PRICE_SCALE := by
      apply tdiv_le_of_le hnum htot (by norm_num [PRICE_SCALE])
      exact mul_le_mul_of_nonneg_right habs (by norm_num [PRICE_SCALE])
    by_cases hd : B - S < 0
    · rw [if_pos hd, mul_neg_one, abs_neg, abs_of_nonneg hr0]
      exact hle
    · rw [if_neg hd, mul_one, abs_of_nonneg hr0]
      exact hle

/-- Witness for C4 at a concrete two-trade sequence. -/
theorem vpin_bounded_witness : |getVPIN (runEvents evW)| ≤ 100000000 :=
  vpin_bounded evW (by decide)

/-- Exactly when the recorder's dispatch pushes a message, and the
symbol tag it always carries. -/
theorem dispatchParts_characterization (visual : Bool) (parts : List String) :
    ((dispatchParts visual parts).isSome ↔
      ((parts.headD "" = "TRADE" ∧ 6 ≤ parts.length ∧
          (stollOpt (parts.getD 1 "")).isSome) ∨
       (parts.headD "" = "DEPTH" ∧ 5 ≤ parts.length ∧ visual = false ∧
          (stollOpt (parts.getD 1 "")).isSome) ∨
       (parts.headD "" = "LIQ" ∧ 6 ≤ parts.length ∧
          (stollOpt (parts.getD 1 "")).isSome) ∨
       (parts.headD "" = "TICKER" ∧ 6 ≤ parts.length ∧
          (stollOpt (parts.getD 1 "")).isSome))) ∧
    (∀ msg, dispatchParts visual parts = some msg →
      msg.symbol_id = ID_WLDUSDT) := by
  cases parts with
  | nil =>
    refine ⟨⟨fun h => by simp [dispatchParts] at h, fun h => ?_⟩,
      fun msg h => by simp [dispatchParts] at h⟩
    rcases h with ⟨h1, _⟩ | ⟨h1, _⟩ | ⟨h1, _⟩ | ⟨h1, _⟩ <;>
      exact absurd h1 (by decide)
  | cons ty rest =>
    simp only [dispatchParts, List.headD_cons]
    constructor
    · constructor
      · intro hsome
        by_cases c1 : ty = "TRADE" ∧ 6 ≤ (ty :: rest).length
        · rw [if_pos c1] at hsome
          cases hst : stollOpt ((ty :: rest).getD 1 "") with
          | none => rw [hst] at hsome; simp at hsome
          | some ts => exact Or.inl ⟨c1.1, c1.2, rfl⟩
        · rw [if_neg c1] at hsome
          by_cases c2 : ty = "DEPTH" ∧ 5 ≤ (ty :: rest).length
          · rw [if_pos c2] at hsome
            by_cases hv : visual = true
            · rw [if_pos hv] at hsome; simp at hsome
            · rw [if_neg hv] at hsome
              cases hst : stollOpt ((ty :: rest).getD 1 "") with
              | none => rw [hst] at hsome; simp at hsome
              | some ts =>
                exact Or.inr (Or.inl ⟨c2.1, c2.2,
                  Bool.not_eq_true visual ▸ hv, rfl⟩)
          · rw [if_neg c2] at hsome
            by_cases c3 : ty = "LIQ" ∧ 6 ≤ (ty :: rest).length
            · rw [if_pos c3] at hsome
              cases hst : stollOpt ((ty :: rest).getD 1 "") with
              | none => rw [hst] at hsome; simp at hsome
              | some ts =>
                exact Or.inr (Or.inr (Or.inl ⟨c3.1, c3.2, rfl⟩))
            · rw [if_neg c3] at hsome
              by_cases c4 : ty = "TICKER" ∧ 6 ≤ (ty :: rest).length
              · rw [if_pos c4] at hsome
                cases hst : stollOpt ((ty :: rest).getD 1 "") with
                | none => rw [hst] at hsome; simp at hsome
                | some ts =>
                  exact Or.inr (Or.inr (Or.inr ⟨c4.1, c4.2, rfl⟩))
              · rw [if_neg c4] at hsome
                simp at hsome
      · intro hdisj
        rcases hdisj with ⟨hty, hlen, hst⟩ | ⟨hty, hlen, hv, hst⟩ |
          ⟨hty, hlen, hst⟩ | ⟨hty, hlen, hst⟩
        · subst hty
          rw [if_pos ⟨rfl, hlen⟩]
          obtain ⟨ts, hts⟩ := Option.isSome_iff_exists.mp hst
          rw [hts]
          rfl
        · subst hty
          rw [if_neg (fun hc => absurd hc.1 (by decide))]
          rw [if_pos ⟨rfl, hlen⟩]
          rw [if_neg (by simp [hv])]
          obtain ⟨ts, hts⟩ := Option.isSome_iff_exists.mp hst
          rw [hts]
          rfl
        · subst hty
          rw [if_neg (fun hc => absurd hc.1 (by decide))]
          rw [if_neg (fun hc => absurd hc.1 (by decide))]
          rw [if_pos ⟨rfl, hlen⟩]
          obtain ⟨ts, hts⟩ := Option.isSome_iff_exists.mp hst
          rw [hts]
          rfl
        · subst hty
          rw [if_neg (fun hc => absurd hc.1 (by decide))]
          rw [if_neg (fun hc => absurd hc.1 (by decide))]
          rw [if_neg (fun hc => absurd hc.1 (by decide))]
          rw [if_pos ⟨rfl, hlen⟩]
          obtain ⟨ts, hts⟩ := Option.isSome_iff_exists.mp hst
          rw [hts]
          rfl
    · intro msg h
      by_cases c1 : ty = "TRADE" ∧ 6 ≤ (ty :: rest).length
      · rw [if_pos c1] at h
        cases hst : stollOpt ((ty :: rest).getD 1 "") with
        | none => rw [hst] at h; simp at h
        | some ts => rw [hst] at h; cases h; rfl
      · rw [if_neg c1] at h
        by_cases c2 : ty = "DEPTH" ∧ 5 ≤ (ty :: rest).length
        · rw [if_pos c2] at h
          by_cases hv : visual = true
          · rw [if_pos hv] at h; simp at h
          · rw [if_neg hv] at h
            cases hst : stollOpt ((ty :: rest).getD 1 "") with
            | none => rw [hst] at h; simp at h
            | some ts => rw [hst] at h; cases h; rfl
        · rw [if_neg c2] at h
          by_cases c3 : ty = "LIQ" ∧ 6 ≤ (ty :: rest).length
          · rw [if_pos c3] at h
            cases hst : stollOpt ((ty :: rest).getD 1 "") with
            | none => rw [hst] at h; simp at h
            | some ts => rw [hst] at h; cases h; rfl
          · rw [if_neg c3] at h
            by_cases c4 : ty = "TICKER" ∧ 6 ≤ (ty :: rest).length
            · rw [if_pos c4] at h
              cases hst : stollOpt ((ty :: rest).getD 1 "") with
              | none => rw [hst] at h; simp at h
              | some ts => rw [hst] at h; cases h; rfl
            · rw [if_neg c4] at h
              simp at h

/-- C8 amended: the producer pushes a message exactly when the line is
non-empty and its type field is one of TRADE/DEPTH/LIQ/TICKER with
enough fields and a parseable timestamp field (for DEPTH, additionally
not in visual mode).  The symbol field is never validated — every
pushed message is tagged WLDUSDT — and malformed price/size fields do
not prevent the push (they encode as 0 via `toFixedE8`). -/
theorem producer_push_characterization (visual : Bool) (line : String) :
    ((processLine visual line).isSome ↔
      (line ≠ "" ∧
        (((cppSplit '|' line.data).headD "" = "TRADE" ∧
            6 ≤ (cppSplit '|' line.data).length ∧
            (stollOpt ((cppSplit '|' line.data).getD 1 "")).isSome) ∨
         ((cppSplit '|' line.data).headD "" = "DEPTH" ∧
            5 ≤ (cppSplit '|' line.data).length ∧ visual = false ∧
            (stollOpt ((cppSplit '|' line.data).getD 1 "")).isSome) ∨
         ((cppSplit '|' line.data).headD "" = "LIQ" ∧
            6 ≤ (cppSplit '|' line.data).length ∧
            (stollOpt ((cppSplit '|' line.data).getD 1 "")).isSome) ∨
         ((cppSplit '|' line.data).headD "" = "TICKER" ∧
            6 ≤ (cppSplit '|' line.data).length ∧
            (stollOpt ((cppSplit '|' line.data).getD 1 "")).isSome)))) ∧
    (∀ msg, processLine visual line = some msg →
      msg.symbol_id = ID_WLDUSDT) := by
  by_cases hl : line = ""
  · subst hl
    constructor
    · simp [processLine]
    · intro msg h
      simp [processLine] at h
  · have hps : processLine visual line =
        dispatchParts visual (cppSplit '|' line.data) := by
      simp [processLine, hl]
    obtain ⟨hiff, hsym⟩ :=
      dispatchParts_characterization visual (cppSplit '|' line.data)
    rw [hps, hiff]
    refine ⟨⟨fun h => ⟨hl, h⟩, fun h => h.2⟩, fun msg h => hsym msg h⟩

/-- C8 counterexample: a TRADE line naming the unknown symbol FAKEUSDT
(the repository's only symbol is WLDUSDT, `protocol.h`) is still
pushed — tagged WLDUSDT — and a TRADE line with a malformed price
field is pushed with price 0 instead of being dropped. -/
theorem producer_accepts_unknown_symbol :
    ((cppSplit '|' ("TRADE|1|FAKEUSDT|BUY|1.5|2" : String).data).getD 2 "")
      ≠ "WLDUSDT" ∧
    processLine false "TRADE|1|FAKEUSDT|BUY|1.5|2" =
      some ⟨ID_WLDUSDT, MsgPayload.trade 1 150000000 200000000 false⟩ ∧
    processLine false "TRADE|1|WLDUSDT|BUY|xx|2" =
      some ⟨ID_WLDUSDT, MsgPayload.trade 1 0 200000000 false⟩ := by
  decide

/-- Witness for C8 amended at concrete lines: an accepted line, an
accepted line whose timestamp carries the leading space that
`std::stoll` skips, a dropped line whose 20-digit timestamp overflows
`int64` (`std::out_of_range`), and the WLDUSDT tag. -/
theorem producer_push_characterization_witness :
    (processLine false "TRADE|1|FAKEUSDT|BUY|1.5|2").isSome = true ∧
    (processLine false "TRADE| 1|FAKEUSDT|BUY|1.5|2").isSome = true ∧
    (processLine false "TRADE|99999999999999999999|WLDUSDT|BUY|1.5|2").isSome
      = false ∧
    (⟨ID_WLDUSDT, MsgPayload.trade 1 150000000 200000000 false⟩ :
      MarketMsg).symbol_id = ID_WLDUSDT :=
  ⟨(producer_push_characterization false "TRADE|1|FAKEUSDT|BUY|1.5|2").1.mpr
      ⟨by decide, Or.inl (by decide)⟩,
   (producer_push_characterization false "TRADE| 1|FAKEUSDT|BUY|1.5|2").1.mpr
      ⟨by decide, Or.inl (by decide)⟩,
   Bool.eq_false_iff.mpr (fun h => absurd
      ((producer_push_characterization false
        "TRADE|99999999999999999999|WLDUSDT|BUY|1.5|2").1.mp h) (by decide)),
   (producer_push_characterization false "TRADE|1|FAKEUSDT|BUY|1.5|2").2 _
      (by decide)⟩
